import Mathlib

/-!
Shallow embedding of the browser file-converter (a React single-page app).
The source is one component file: a format/MIME table (`IMAGE_FORMATS`,
`getMimeType`), a tracked-file record (`ProcessedFile`), the drop handler
(`onDrop`), the conversion routine (`convertFile`), the format selector
handler (`updateOutputFormat`), and the remove button (a list filter).
The external ffmpeg.wasm engine is opaque: it is modelled by an oracle
(`EngineRun`) fixing whether each engine call succeeds and what bytes a
successful read returns.  Engine calls issued by `convertFile` are recorded
in a trace (`EngineCall`).
-/

namespace Converter

/-- Status field of a tracked entry: the four string literals used in the
source (`"pending" | "converting" | "completed" | "error"`). -/
inductive Status where
  | pending
  | converting
  | completed
  | error
deriving DecidableEq

/-- The part of a browser `File` object the component reads: `file.name`
and `file.type` (the declared content type). -/
structure FileInfo where
  name : String
  type : String
deriving DecidableEq

/-- A produced output resource: the defensively copied bytes and the MIME
type of the `Blob` wrapped into the object URL.  Bytes are modelled as a
list of naturals. -/
structure ConvOutput where
  bytes : List Nat
  mime : String
deriving DecidableEq

/-- The `ProcessedFile` interface of the source: file reference, random id,
status, preview URL, optional output URL, optional requested format. -/
structure ProcessedFile where
  file : FileInfo
  id : String
  status : Status
  preview : String
  outputUrl : Option ConvOutput := none
  outputFormat : Option String := none
deriving DecidableEq

/-- The `IMAGE_FORMATS` table: (value, label, mime) triples, in source
order. -/
def IMAGE_FORMATS : List (String × String × String) :=
  [ ("jpg", "JPEG", "image/jpeg"),
    ("jpeg", "JPEG", "image/jpeg"),
    ("png", "PNG", "image/png"),
    ("webp", "WebP", "image/webp"),
    ("gif", "GIF", "image/gif"),
    ("bmp", "BMP", "image/bmp"),
    ("tiff", "TIFF", "image/tiff"),
    ("tif", "TIFF", "image/tiff"),
    ("avif", "AVIF", "image/avif"),
    ("ico", "ICO", "image/x-icon") ]

/-- The fallback `mimeMap` record inside `getMimeType`, as an association
list in source order. -/
def mimeMap : List (String × String) :=
  [ ("jpg", "image/jpeg"),
    ("jpeg", "image/jpeg"),
    ("png", "image/png"),
    ("webp", "image/webp"),
    ("gif", "image/gif"),
    ("bmp", "image/bmp"),
    ("tiff", "image/tiff"),
    ("tif", "image/tiff"),
    ("avif", "image/avif"),
    ("ico", "image/x-icon") ]

/-- The format keys recognized by the table (the `value` column). -/
def formatKeys : List String := IMAGE_FORMATS.map (fun f => f.1)

/-- JavaScript `toLowerCase()` on the format strings, modelled as ASCII
lower-casing of the character list.  This is the same function as Lean's
`String.toLower` (proved below) but written structurally so that it
evaluates inside the kernel. -/
def toLowerStr (s : String) : String := ⟨s.data.map Char.toLower⟩

/-- The `getMimeType` function: find the format in `IMAGE_FORMATS` by
lower-cased value; otherwise look it up in `mimeMap` (again lower-cased);
otherwise return the default `"image/png"`. -/
def getMimeType (format : String) : String :=
  match IMAGE_FORMATS.find? (fun f => f.1 == toLowerStr format) with
  | some fi => fi.2.2
  | none =>
    match mimeMap.find? (fun p => p.1 == toLowerStr format) with
    | some p => p.2
    | none => "image/png"

/-- JavaScript `s.startsWith(pre)`, written structurally on the character
lists. -/
def strStartsWith (s pre : String) : Bool := pre.data.isPrefixOf s.data

/-- Whether the component treats a file as an image:
`file.type.startsWith("image/")`. -/
def isImageFile (f : FileInfo) : Bool := strStartsWith f.type "image/"

/-- The entry built by `onDrop` for one accepted file.  The random id and
the object-URL preview produced by the browser are passed in as data. -/
def mkDroppedEntry (file : FileInfo) (id preview : String) : ProcessedFile :=
  { file := file
    id := id
    status := .pending
    preview := preview
    outputUrl := none
    outputFormat := some (if isImageFile file then "png" else "mp4") }

/-- The `onDrop` handler: map each accepted file (paired with its generated
id and preview URL) to a fresh pending entry and append them to the
previous list (`setFiles(prev => [...prev, ...newFiles])`). -/
def onDrop (accepted : List (FileInfo × String × String))
    (prev : List ProcessedFile) : List ProcessedFile :=
  prev ++ accepted.map (fun p => mkDroppedEntry p.1 p.2.1 p.2.2)

/-- JavaScript `x || dflt` on an optional string: `null`, `undefined` and
the empty string are falsy. -/
def jsOrElse (o : Option String) (dflt : String) : String :=
  match o with
  | some s => if s = "" then dflt else s
  | none => dflt

/-- The `safeExt` local of `convertFile`, JavaScript
`name.includes(".") ? name.split(".").pop() : "bin"` written structurally
on the character list: the part after the last dot of
the file name when it contains a dot, else the placeholder `"bin"`. -/
def safeExt (name : String) : String :=
  if '.' ∈ name.data then
    ⟨(name.data.reverse.takeWhile (fun c => c ≠ '.')).reverse⟩
  else "bin"

/-- The requested output format used by `convertFile`:
`fileObj.outputFormat || "png"`. -/
def requestedFormat (fileObj : ProcessedFile) : String :=
  jsOrElse fileObj.outputFormat "png"

/-- The workspace input name: `input_<id>.<safeExt>`. -/
def inputNameOf (fileObj : ProcessedFile) : String :=
  "input_" ++ fileObj.id ++ "." ++ safeExt fileObj.file.name

/-- The workspace output name: `output_<id>.<requested format>`. -/
def outputNameOf (fileObj : ProcessedFile) : String :=
  "output_" ++ fileObj.id ++ "." ++ requestedFormat fileObj

/-- Argument list for image inputs: `-i <input>`, a quality flag for the
lossy formats jpg/jpeg/webp, then the output name. -/
def imageArgs (inputName outputFormat outputName : String) : List String :=
  ["-i", inputName]
    ++ (if ["jpg", "jpeg", "webp"].contains outputFormat
        then ["-q:v", "2"] else [])
    ++ [outputName]

/-- Argument list for non-image inputs: the fixed libx264/ultrafast/crf 23
/aac pipeline into the output name. -/
def videoArgs (inputName outputName : String) : List String :=
  ["-i", inputName, "-c:v", "libx264", "-preset", "ultrafast",
   "-crf", "23", "-c:a", "aac", outputName]

/-- The argument list `convertFile` passes to `ffmpeg.exec`. -/
def convertArgs (isImage : Bool) (inputName outputFormat outputName : String) :
    List String :=
  if isImage then imageArgs inputName outputFormat outputName
  else videoArgs inputName outputName

/-- Oracle for one run of the external engine during a single
`convertFile` call: whether `writeFile`, `exec` and the two `deleteFile`
calls succeed, and what `readFile` yields (`none` = the read rejects,
`some bytes` = the returned buffer). -/
structure EngineRun where
  writeOk : Bool
  execOk : Bool
  readResult : Option (List Nat)
  deleteInputOk : Bool
  deleteOutputOk : Bool
deriving DecidableEq

/-- The conversion-local failure taxonomy of the spec: a failing engine
write, exec or read, or an empty output buffer. -/
inductive ConvError where
  | writeFailure
  | execFailure
  | readFailure
  | emptyOutput
deriving DecidableEq

/-- Result of the `try` block of `convertFile`: either the produced output
resource, or the first failure encountered. -/
inductive ConvResult where
  | ok (out : ConvOutput)
  | failed (e : ConvError)
deriving DecidableEq

/-- Semantics of the `try` block of `convertFile` over the engine oracle,
in source order: write, exec, read, the empty-output check, then the
defensive copy wrapped as a blob with `getMimeType` of the requested
format. -/
def runEngine (eng : EngineRun) (outputFormat : String) : ConvResult :=
  if eng.writeOk = false then .failed .writeFailure
  else if eng.execOk = false then .failed .execFailure
  else
    match eng.readResult with
    | none => .failed .readFailure
    | some bytes =>
      if bytes.length = 0 then .failed .emptyOutput
      else .ok { bytes := bytes, mime := getMimeType outputFormat }

/-- Whether the engine run satisfies the success conditions of the claim:
write and exec succeed and the read returns a non-empty buffer. -/
def engSuccess (eng : EngineRun) : Prop :=
  eng.writeOk = true ∧ eng.execOk = true ∧
    ∃ bytes, eng.readResult = some bytes ∧ bytes ≠ []

/-- One engine call as recorded in a trace. -/
inductive EngineCall where
  | write (name : String)
  | exec (args : List String)
  | read (name : String)
  | deleteFile (name : String)
deriving DecidableEq

/-- Trace of engine calls issued by the `try` block: the write always
happens; the exec only if the write succeeded; the read only if the exec
also succeeded (a thrown rejection jumps to `catch`). -/
def tryTrace (eng : EngineRun) (isImage : Bool)
    (inputName outputFormat outputName : String) : List EngineCall :=
  [.write inputName]
    ++ (if eng.writeOk then
          [.exec (convertArgs isImage inputName outputFormat outputName)]
            ++ (if eng.execOk then [.read outputName] else [])
        else [])

/-- Trace of engine calls issued by the `finally` block: both deletions
sit in one `try { ... } catch {}`, so a failing input deletion skips the
output deletion. -/
def cleanupTrace (eng : EngineRun) (inputName outputName : String) :
    List EngineCall :=
  [.deleteFile inputName]
    ++ (if eng.deleteInputOk then [.deleteFile outputName] else [])

/-- The first `setFiles` of `convertFile`: mark the entry with the target
id as `converting`. -/
def setConverting (id : String) (files : List ProcessedFile) :
    List ProcessedFile :=
  files.map (fun f => if f.id = id then { f with status := .converting } else f)

/-- Per-entry effect of the resolution `setFiles` of `convertFile`: on
success set status `completed` and attach the output URL, on failure set
status `error`; entries with a different id are untouched. -/
def resolveEntry (id : String) (res : ConvResult) (f : ProcessedFile) :
    ProcessedFile :=
  if f.id = id then
    match res with
    | .ok out => { f with status := .completed, outputUrl := some out }
    | .failed _ => { f with status := .error }
  else f

/-- The resolution `setFiles` of `convertFile`, mapped over the list. -/
def applyResolve (id : String) (res : ConvResult)
    (files : List ProcessedFile) : List ProcessedFile :=
  files.map (resolveEntry id res)

/-- Per-entry effect of a whole `convertFile` call on the tracked list:
first the `converting` update, then the resolution update. -/
def convertUpdate (eng : EngineRun) (fileObj : ProcessedFile)
    (f : ProcessedFile) : ProcessedFile :=
  resolveEntry fileObj.id (runEngine eng (requestedFormat fileObj))
    (if f.id = fileObj.id then { f with status := .converting } else f)

/-- The whole `convertFile` call, run to completion with no interleaving:
returns the final tracked list and the trace of engine calls (try block
then finally block). -/
def convertFile (eng : EngineRun) (fileObj : ProcessedFile)
    (files : List ProcessedFile) : List ProcessedFile × List EngineCall :=
  let inputName := inputNameOf fileObj
  let outputFormat := requestedFormat fileObj
  let outputName := outputNameOf fileObj
  let isImage := isImageFile fileObj.file
  let files2 := applyResolve fileObj.id (runEngine eng outputFormat)
      (setConverting fileObj.id files)
  (files2,
    tryTrace eng isImage inputName outputFormat outputName
      ++ cleanupTrace eng inputName outputName)

/-- The `updateOutputFormat` handler: set the requested format of the
entry with the given id.  The source has no status check. -/
def updateOutputFormat (fileId format : String)
    (files : List ProcessedFile) : List ProcessedFile :=
  files.map (fun f =>
    if f.id = fileId then { f with outputFormat := some format } else f)

/-- The remove button: `setFiles(prev => prev.filter(item => item.id !==
f.id))`. -/
def removeFile (id : String) (files : List ProcessedFile) :
    List ProcessedFile :=
  files.filter (fun f => f.id != id)

/-! Transition system for the UI state.  A `convertFile` call is split
into its two `setFiles` updates: the synchronous `converting` transition
at the start, and the asynchronous resolution after the engine run (the
in-flight conversion).  The random id generator of `onDrop` is modelled
as producing globally fresh tokens, recorded in `usedIds`. -/

/-- UI state: the tracked list, the in-flight conversions (target id and
the already-determined engine result), and every id ever generated. -/
structure AppState where
  files : List ProcessedFile
  inflight : List (String × ConvResult)
  usedIds : List String
deriving DecidableEq

/-- Ids of the currently tracked entries. -/
def idsOf (files : List ProcessedFile) : List String :=
  files.map (fun f => f.id)

/-- UI events: dropping files, picking a format, clicking Convert (which
starts a conversion against a given engine oracle), an in-flight
conversion resolving, and clicking the remove button. -/
inductive Event where
  | drop (accepted : List (FileInfo × String × String))
  | setFormat (id format : String)
  | convertStart (fileObj : ProcessedFile) (eng : EngineRun)
  | convertResolve (id : String)
  | remove (id : String)

/-- One UI event.  `none` means the event cannot fire in this state: a
drop whose generated ids are not fresh, a Convert click on an entry that
is not rendered with a Convert button (the button exists only for tracked
`pending` entries), or a resolution with no matching in-flight
conversion. -/
def step (s : AppState) (e : Event) : Option AppState :=
  match e with
  | .drop accepted =>
    if (accepted.map (fun p => p.2.1)).Nodup ∧
        ∀ i ∈ accepted.map (fun p => p.2.1), i ∉ s.usedIds then
      some { s with files := onDrop accepted s.files,
                    usedIds := s.usedIds ++ accepted.map (fun p => p.2.1) }
    else none
  | .setFormat id fmt =>
    some { s with files := updateOutputFormat id fmt s.files }
  | .convertStart fileObj eng =>
    if fileObj ∈ s.files ∧ fileObj.status = .pending then
      some { s with
        files := setConverting fileObj.id s.files,
        inflight := s.inflight
          ++ [(fileObj.id, runEngine eng (requestedFormat fileObj))] }
    else none
  | .convertResolve id =>
    match s.inflight.find? (fun p => p.1 == id) with
    | some p =>
      some { s with files := applyResolve id p.2 s.files,
                    inflight := s.inflight.filter (fun q => q.1 != id) }
    | none => none
  | .remove id =>
    some { s with files := removeFile id s.files }

/-- An event that cannot fire leaves the state unchanged. -/
def stepD (s : AppState) (e : Event) : AppState :=
  (step s e).getD s

/-- Run a list of events from a state. -/
def runEvents (s : AppState) (es : List Event) : AppState :=
  es.foldl stepD s

/-- The initial state: no files, no in-flight conversions, no ids. -/
def initState : AppState := ⟨[], [], []⟩

/-- Rank of a status along the chain
pending, converting, then the two terminal states. -/
def rank : Status → Nat
  | .pending => 0
  | .converting => 1
  | .completed => 2
  | .error => 2

/-- The terminal statuses. -/
def isTerminal : Status → Bool
  | .completed => true
  | .error => true
  | _ => false

/-- State invariant: tracked ids are distinct, every tracked id and every
in-flight id has been generated, and an in-flight conversion's tracked
entry (when still tracked) is in status `converting`. -/
structure Inv (s : AppState) : Prop where
  nodup : (idsOf s.files).Nodup
  files_used : ∀ f ∈ s.files, f.id ∈ s.usedIds
  inflight_used : ∀ p ∈ s.inflight, p.1 ∈ s.usedIds
  inflight_converting :
    ∀ p ∈ s.inflight, ∀ f ∈ s.files, f.id = p.1 → f.status = .converting

/-! Basic lemmas about the conversion pipeline. -/

theorem convertFile_fst (eng : EngineRun) (fileObj : ProcessedFile)
    (files : List ProcessedFile) :
    (convertFile eng fileObj files).1 = files.map (convertUpdate eng fileObj) := by
  simp only [convertFile, applyResolve, setConverting, List.map_map]
  rfl

theorem runEngine_of_success {eng : EngineRun} (h : engSuccess eng)
    (fmt : String) :
    ∃ bytes, bytes ≠ [] ∧
      runEngine eng fmt = .ok { bytes := bytes, mime := getMimeType fmt } := by
  obtain ⟨hw, hx, bytes, hr, hb⟩ := h
  refine ⟨bytes, hb, ?_⟩
  simp [runEngine, hw, hx, hr, List.length_eq_zero, hb]

theorem runEngine_of_failure {eng : EngineRun} (fmt : String)
    (h : ¬ engSuccess eng) :
    ∃ e, runEngine eng fmt = .failed e := by
  cases hw : eng.writeOk with
  | false => exact ⟨.writeFailure, by simp [runEngine, hw]⟩
  | true =>
    cases hx : eng.execOk with
    | false => exact ⟨.execFailure, by simp [runEngine, hw, hx]⟩
    | true =>
      cases hr : eng.readResult with
      | none => exact ⟨.readFailure, by simp [runEngine, hw, hx, hr]⟩
      | some bytes =>
        by_cases hb : bytes = []
        · subst hb
          exact ⟨.emptyOutput, by simp [runEngine, hw, hx, hr]⟩
        · exact absurd ⟨hw, hx, bytes, hr, hb⟩ h

theorem resolveEntry_ok_of_id {id : String} {out : ConvOutput}
    {f : ProcessedFile} (h : f.id = id) :
    resolveEntry id (.ok out) f =
      { f with status := .completed, outputUrl := some out } := by
  simp [resolveEntry, h]

theorem resolveEntry_failed_of_id {id : String} {e : ConvError}
    {f : ProcessedFile} (h : f.id = id) :
    resolveEntry id (.failed e) f = { f with status := .error } := by
  simp [resolveEntry, h]

theorem resolveEntry_of_ne {id : String} {res : ConvResult}
    {f : ProcessedFile} (h : f.id ≠ id) : resolveEntry id res f = f := by
  cases res <;> simp [resolveEntry, h]

theorem convertUpdate_eq_of_id (eng : EngineRun) {fileObj g : ProcessedFile}
    (hid : g.id = fileObj.id) :
    (convertUpdate eng fileObj g).status =
      (match runEngine eng (requestedFormat fileObj) with
       | .ok _ => Status.completed
       | .failed _ => Status.error) ∧
    (convertUpdate eng fileObj g).outputUrl =
      (match runEngine eng (requestedFormat fileObj) with
       | .ok out => some out
       | .failed _ => g.outputUrl) := by
  unfold convertUpdate resolveEntry
  rw [if_pos hid]
  cases runEngine eng (requestedFormat fileObj) <;> simp [hid]

/-- C1: when every engine step of a `Convert` succeeds and the read buffer
is non-empty, the entry ends `completed` with a non-null output resource
attached; when any of steps 3 to 7 fails, it ends `error` with no output
resource attached. -/
theorem convert_end_state (eng : EngineRun) (fileObj g : ProcessedFile)
    (files : List ProcessedFile) (hg : g ∈ files) (hid : g.id = fileObj.id)
    (hout : g.outputUrl = none) :
    convertUpdate eng fileObj g ∈ (convertFile eng fileObj files).1 ∧
    (engSuccess eng →
      (convertUpdate eng fileObj g).status = .completed ∧
      ∃ out, (convertUpdate eng fileObj g).outputUrl = some out ∧
        out.bytes ≠ []) ∧
    (¬ engSuccess eng →
      (convertUpdate eng fileObj g).status = .error ∧
      (convertUpdate eng fileObj g).outputUrl = none) := by
  refine ⟨?_, ?_, ?_⟩
  · rw [convertFile_fst]
    exact List.mem_map_of_mem _ hg
  · intro h
    obtain ⟨bytes, hb, hrun⟩ := runEngine_of_success h (requestedFormat fileObj)
    obtain ⟨hst, hurl⟩ := convertUpdate_eq_of_id eng hid
    rw [hrun] at hst hurl
    exact ⟨hst, _, hurl, hb⟩
  · intro h
    obtain ⟨e, hrun⟩ := runEngine_of_failure (requestedFormat fileObj) h
    obtain ⟨hst, hurl⟩ := convertUpdate_eq_of_id eng hid
    rw [hrun] at hst hurl
    exact ⟨hst, hurl.trans hout⟩

/-- C7: a zero-byte read buffer makes `Convert` fail with `EmptyOutput`
and the entry end in `error`, even though write, exec and read all
succeeded. -/
theorem convert_empty_output (eng : EngineRun) (fileObj g : ProcessedFile)
    (files : List ProcessedFile) (bytes : List Nat) (hg : g ∈ files)
    (hid : g.id = fileObj.id) (hw : eng.writeOk = true)
    (hx : eng.execOk = true) (hr : eng.readResult = some bytes)
    (hb : bytes.length = 0) :
    runEngine eng (requestedFormat fileObj) = .failed .emptyOutput ∧
    (convertUpdate eng fileObj g).status = .error ∧
    convertUpdate eng fileObj g ∈ (convertFile eng fileObj files).1 := by
  have hrun : runEngine eng (requestedFormat fileObj) = .failed .emptyOutput := by
    simp [runEngine, hw, hx, hr, hb]
  refine ⟨hrun, ?_, ?_⟩
  · obtain ⟨hst, _⟩ := convertUpdate_eq_of_id eng hid
    rw [hrun] at hst
    exact hst
  · rw [convertFile_fst]
    exact List.mem_map_of_mem _ hg

/-- C6: for a non-image entry, every command `Convert` issues is the fixed
H.264 ultrafast crf-23 AAC pipeline into the output name, whatever the
requested output format; the command is issued whenever the write
succeeded. -/
theorem convert_video_pipeline (eng : EngineRun) (fileObj : ProcessedFile)
    (files : List ProcessedFile) (himg : isImageFile fileObj.file = false) :
    (∀ args, EngineCall.exec args ∈ (convertFile eng fileObj files).2 →
      args = ["-i", inputNameOf fileObj, "-c:v", "libx264", "-preset",
        "ultrafast", "-crf", "23", "-c:a", "aac", outputNameOf fileObj]) ∧
    (eng.writeOk = true →
      EngineCall.exec ["-i", inputNameOf fileObj, "-c:v", "libx264",
        "-preset", "ultrafast", "-crf", "23", "-c:a", "aac",
        outputNameOf fileObj] ∈ (convertFile eng fileObj files).2) ∧
    (∀ fmt fmt',
      convertArgs false (inputNameOf fileObj) fmt (outputNameOf fileObj) =
      convertArgs false (inputNameOf fileObj) fmt' (outputNameOf fileObj)) := by
  refine ⟨?_, ?_, fun _ _ => rfl⟩
  · intro args hargs
    cases hw : eng.writeOk <;> cases hx : eng.execOk <;>
      cases hd : eng.deleteInputOk <;>
      simp_all [convertFile, tryTrace, cleanupTrace, hw, hx, hd,
        convertArgs, himg, videoArgs]
  · intro hw
    cases hx : eng.execOk <;> cases hd : eng.deleteInputOk <;>
      simp [convertFile, tryTrace, cleanupTrace, hw, hx, hd,
        convertArgs, himg, videoArgs]

/-- C3 counterexample input: an engine run whose input deletion fails. -/
def engDeleteInputFails : EngineRun :=
  { writeOk := true, execOk := true, readResult := some [1],
    deleteInputOk := false, deleteOutputOk := true }

/-- C3 sample file and entry for the counterexample. -/
def sampleImageFile : FileInfo := { name := "photo.png", type := "image/png" }

def sampleEntry : ProcessedFile :=
  { file := sampleImageFile, id := "id1", status := .pending,
    preview := "blob:1", outputUrl := none, outputFormat := some "png" }

/-- C3 counterexample: when the input deletion fails, the output deletion
is never attempted — both deletions sit in one try/catch, so the first
failure skips the second.  The claim that deletion is attempted for both
workspace entries is therefore false. -/
theorem cleanup_skips_output_on_input_failure :
    engDeleteInputFails.deleteInputOk = false ∧
    EngineCall.deleteFile (inputNameOf sampleEntry)
      ∈ (convertFile engDeleteInputFails sampleEntry [sampleEntry]).2 ∧
    EngineCall.deleteFile (outputNameOf sampleEntry)
      ∉ (convertFile engDeleteInputFails sampleEntry [sampleEntry]).2 := by
  decide

/-- C3 (amended): after every `Convert`, deletion of the input workspace
entry is always attempted; deletion of the output entry is attempted
exactly when the input deletion succeeded; and the deletion outcomes never
change the final tracked list (hence never change the entry's status). -/
theorem cleanup_after_convert (eng : EngineRun) (fileObj : ProcessedFile)
    (files : List ProcessedFile) :
    EngineCall.deleteFile (inputNameOf fileObj)
      ∈ (convertFile eng fileObj files).2 ∧
    (eng.deleteInputOk = true →
      EngineCall.deleteFile (outputNameOf fileObj)
        ∈ (convertFile eng fileObj files).2) ∧
    (∀ b b' : Bool,
      (convertFile { eng with deleteInputOk := b, deleteOutputOk := b' }
        fileObj files).1 = (convertFile eng fileObj files).1) := by
  refine ⟨?_, ?_, fun _ _ => rfl⟩
  · simp [convertFile, cleanupTrace]
  · intro hd
    simp [convertFile, cleanupTrace, hd]

/-- C9: the remove button deletes exactly the entries with the clicked id,
whatever their status, keeping everything else; and the resolution update
of a conversion whose id is no longer tracked leaves the list entirely
unchanged. -/
theorem remove_and_stale_resolve (id : String) (files : List ProcessedFile)
    (res : ConvResult) :
    (∀ g, g ∈ removeFile id files ↔ g ∈ files ∧ g.id ≠ id) ∧
    ((∀ f ∈ files, f.id ≠ id) → applyResolve id res files = files) := by
  constructor
  · intro g
    simp [removeFile, List.mem_filter, bne_iff_ne]
  · intro h
    unfold applyResolve
    induction files with
    | nil => rfl
    | cons a as ih =>
      simp only [List.map_cons]
      rw [resolveEntry_of_ne (h a (by simp)),
        ih (fun f hf => h f (by simp [hf]))]

/-- C10: each tracked-list update of `Convert` (the `converting` marking,
the resolution) and of `SetOutputFormat` leaves every entry whose id
differs from the target id unchanged, at its position. -/
theorem update_frame (id fmt : String) (res : ConvResult) (eng : EngineRun)
    (fileObj : ProcessedFile) (files : List ProcessedFile) (i : Nat)
    (h : i < files.length) :
    (files[i].id ≠ id →
      (setConverting id files)[i]? = some files[i] ∧
      (applyResolve id res files)[i]? = some files[i] ∧
      (updateOutputFormat id fmt files)[i]? = some files[i]) ∧
    (files[i].id ≠ fileObj.id →
      ((convertFile eng fileObj files).1)[i]? = some files[i]) := by
  have hget : files[i]? = some files[i] := List.getElem?_eq_getElem h
  constructor
  · intro hne
    refine ⟨?_, ?_, ?_⟩ <;>
      simp [setConverting, applyResolve, updateOutputFormat,
        List.getElem?_map, hget, resolveEntry_of_ne hne, hne]
  · intro hne
    rw [convertFile_fst]
    have hcu : convertUpdate eng fileObj files[i] = files[i] := by
      unfold convertUpdate
      rw [if_neg hne, resolveEntry_of_ne hne]
    simp [List.getElem?_map, hget, hcu]

/-- C2 counterexample input: a tracked entry already in terminal status
`completed`. -/
def completedEntry : ProcessedFile :=
  { file := sampleImageFile, id := "id2", status := .completed,
    preview := "blob:2", outputUrl := none, outputFormat := some "png" }

/-- C2 counterexample: `updateOutputFormat` has no status guard — called
on an entry whose status is `completed`, it still changes the requested
format, so the tracked list is not left unchanged. -/
theorem setFormat_ignores_status :
    completedEntry.status = .completed ∧
    updateOutputFormat "id2" "jpg" [completedEntry] ≠ [completedEntry] := by
  decide

/-- C2 (amended): `SetOutputFormat` updates the requested output format of
every tracked entry whose id matches, regardless of its status; the call
is a no-op exactly when no tracked entry has the id. -/
theorem setFormat_updates_by_id (id fmt : String)
    (files : List ProcessedFile) :
    ((∀ f ∈ files, f.id ≠ id) → updateOutputFormat id fmt files = files) ∧
    (∀ i, ∀ h : i < files.length,
      (files[i].id = id →
        (updateOutputFormat id fmt files)[i]? =
          some { files[i] with outputFormat := some fmt }) ∧
      (files[i].id ≠ id →
        (updateOutputFormat id fmt files)[i]? = some files[i])) := by
  constructor
  · intro h
    unfold updateOutputFormat
    induction files with
    | nil => rfl
    | cons a as ih =>
      simp only [List.map_cons]
      rw [if_neg (h a (by simp)), ih (fun f hf => h f (by simp [hf]))]
  · intro i h
    have hget : files[i]? = some files[i] := List.getElem?_eq_getElem h
    constructor
    · intro he
      simp [updateOutputFormat, List.getElem?_map, hget, he]
    · intro hne
      simp [updateOutputFormat, List.getElem?_map, hget, hne]

/-- C5: `Accept` appends exactly one entry per accepted file, in `pending`
status, keeping the previous entries in place; the new entry's default
format is `png` when the declared content type starts with `image/` and
`mp4` otherwise. -/
theorem onDrop_creates_pending (accepted : List (FileInfo × String × String))
    (prev : List ProcessedFile) :
    (onDrop accepted prev).length = prev.length + accepted.length ∧
    (∀ i, i < prev.length → (onDrop accepted prev)[i]? = prev[i]?) ∧
    (∀ i, ∀ h : i < accepted.length,
      (onDrop accepted prev)[prev.length + i]? =
        some (mkDroppedEntry accepted[i].1 accepted[i].2.1
          accepted[i].2.2)) ∧
    (∀ file id preview,
      (mkDroppedEntry file id preview).status = .pending ∧
      (mkDroppedEntry file id preview).file = file ∧
      (mkDroppedEntry file id preview).id = id ∧
      (mkDroppedEntry file id preview).outputFormat =
        some (if isImageFile file then "png" else "mp4")) := by
  refine ⟨?_, ?_, ?_, ?_⟩
  · simp [onDrop]
  · intro i hi
    rw [onDrop, List.getElem?_append_left hi]
  · intro i hi
    have h1 : prev.length ≤ prev.length + i := Nat.le_add_right _ _
    rw [onDrop, List.getElem?_append_right h1]
    simp [List.getElem?_map, List.getElem?_eq_getElem hi]
  · intro file id preview
    exact ⟨rfl, rfl, rfl, rfl⟩

/-! Lower-casing lemmas for the MIME lookup. -/

theorem char_toLower_eq (c : Char) :
    c.toLower =
      if c.toNat ≥ 65 ∧ c.toNat ≤ 90 then Char.ofNat (c.toNat + 32) else c :=
  rfl

theorem char_toNat_ofNat_of_lt {n : Nat} (h : n < 55296) :
    (Char.ofNat n).toNat = n := by
  unfold Char.ofNat
  rw [dif_pos (Or.inl h)]
  rfl

theorem char_toLower_idem (c : Char) : c.toLower.toLower = c.toLower := by
  by_cases h : c.toNat ≥ 65 ∧ c.toNat ≤ 90
  · have h1 : c.toLower = Char.ofNat (c.toNat + 32) := by
      rw [char_toLower_eq, if_pos h]
    have ht : (Char.ofNat (c.toNat + 32)).toNat = c.toNat + 32 :=
      char_toNat_ofNat_of_lt (by omega)
    rw [h1, char_toLower_eq, ht, if_neg (by omega)]
  · have h1 : c.toLower = c := by rw [char_toLower_eq, if_neg h]
    rw [h1, h1]

theorem toLowerStr_eq (s : String) : toLowerStr s = s.toLower :=
  (String.map_eq Char.toLower s).symm

theorem toLowerStr_idem (s : String) :
    toLowerStr (toLowerStr s) = toLowerStr s := by
  show String.mk ((s.data.map Char.toLower).map Char.toLower) =
    String.mk (s.data.map Char.toLower)
  congr 1
  rw [List.map_map]
  exact List.map_congr_left (fun a _ => char_toLower_idem a)

/-- C8: `getMimeType` is case-insensitive — it agrees with itself on the
lower-cased string — and any string whose lower-cased form is not among
the table's format keys resolves to the default `"image/png"`.  The
structural lower-casing used by the model is Lean's `String.toLower`. -/
theorem getMimeType_case_insensitive (s : String) :
    getMimeType s = getMimeType s.toLower ∧
    (toLowerStr s ∉ formatKeys → getMimeType s = "image/png") ∧
    toLowerStr s = s.toLower := by
  refine ⟨?_, ?_, toLowerStr_eq s⟩
  · conv_rhs => rw [← toLowerStr_eq]
    simp only [getMimeType, toLowerStr_idem]
  · intro h
    have h1 : ∀ x ∈ IMAGE_FORMATS, ¬(x.1 == toLowerStr s) = true := by
      intro x hx
      simp only [beq_iff_eq]
      intro he
      exact h (he ▸ List.mem_map_of_mem (fun f => f.1) hx)
    have h2 : ∀ x ∈ mimeMap, ¬(x.1 == toLowerStr s) = true := by
      intro x hx
      simp only [beq_iff_eq]
      intro he
      apply h
      rw [← he]
      fin_cases hx <;> decide
    unfold getMimeType
    rw [List.find?_eq_none.mpr h1, List.find?_eq_none.mpr h2]

/-! Transition-system lemmas for the per-entry status state machine. -/

theorem mem_idsOf {files : List ProcessedFile} {i : String} :
    i ∈ idsOf files ↔ ∃ f ∈ files, f.id = i := by
  simp [idsOf]

theorem eq_of_mem_same_id {files : List ProcessedFile}
    (hnd : (idsOf files).Nodup) {f g : ProcessedFile}
    (hf : f ∈ files) (hg : g ∈ files) (h : f.id = g.id) : f = g :=
  List.inj_on_of_nodup_map hnd hf hg h

theorem idsOf_map (u : ProcessedFile → ProcessedFile)
    (hu : ∀ f, (u f).id = f.id) (files : List ProcessedFile) :
    idsOf (files.map u) = idsOf files := by
  unfold idsOf
  rw [List.map_map]
  exact List.map_congr_left (fun f _ => hu f)

theorem idsOf_onDrop (accepted : List (FileInfo × String × String))
    (prev : List ProcessedFile) :
    idsOf (onDrop accepted prev) =
      idsOf prev ++ accepted.map (fun p => p.2.1) := by
  unfold idsOf onDrop
  rw [List.map_append, List.map_map]
  rfl

theorem convertingUpdate_id (id : String) (f : ProcessedFile) :
    (if f.id = id then { f with status := Status.converting } else f).id =
      f.id := by
  by_cases h : f.id = id <;> simp [h]

theorem formatUpdate_id (id fmt : String) (f : ProcessedFile) :
    (if f.id = id then { f with outputFormat := some fmt } else f).id =
      f.id := by
  by_cases h : f.id = id <;> simp [h]

theorem formatUpdate_status (id fmt : String) (f : ProcessedFile) :
    (if f.id = id then { f with outputFormat := some fmt } else f).status =
      f.status := by
  by_cases h : f.id = id <;> simp [h]

theorem resolveEntry_id (id : String) (res : ConvResult)
    (f : ProcessedFile) : (resolveEntry id res f).id = f.id := by
  cases res <;> by_cases h : f.id = id <;> simp [resolveEntry, h]

theorem runEvents_append (s : AppState) (a b : List Event) :
    runEvents s (a ++ b) = runEvents (runEvents s a) b := by
  simp [runEvents, List.foldl_append]

theorem inv_init : Inv initState := by
  constructor <;> simp [initState, idsOf]

theorem inv_stepD {s : AppState} (hs : Inv s) (e : Event) :
    Inv (stepD s e) := by
  cases e with
  | drop accepted =>
    by_cases hg : (accepted.map (fun p => p.2.1)).Nodup ∧
        ∀ i ∈ accepted.map (fun p => p.2.1), i ∉ s.usedIds
    · have hstep : stepD s (.drop accepted) =
          { s with files := onDrop accepted s.files,
                   usedIds := s.usedIds ++ accepted.map (fun p => p.2.1) } := by
        simp only [stepD, step]
        rw [if_pos hg]
        rfl
      rw [hstep]
      refine ⟨?_, ?_, ?_, ?_⟩
      · rw [idsOf_onDrop, List.nodup_append]
        refine ⟨hs.nodup, hg.1, ?_⟩
        intro a ha hnew
        obtain ⟨f0, hf0, rfl⟩ := mem_idsOf.mp ha
        exact hg.2 _ hnew (hs.files_used f0 hf0)
      · intro f hf
        rcases List.mem_append.mp hf with hf | hf
        · exact List.mem_append_left _ (hs.files_used f hf)
        · obtain ⟨p, hp, rfl⟩ := List.mem_map.mp hf
          exact List.mem_append_right _ (List.mem_map_of_mem _ hp)
      · intro p hp
        exact List.mem_append_left _ (hs.inflight_used p hp)
      · intro p hp f hf hfid
        rcases List.mem_append.mp hf with hf | hf
        · exact hs.inflight_converting p hp f hf hfid
        · exfalso
          obtain ⟨q, hq, rfl⟩ := List.mem_map.mp hf
          refine hg.2 q.2.1 (List.mem_map_of_mem _ hq) ?_
          rw [show (q.2.1 : String) = p.1 from hfid]
          exact hs.inflight_used p hp
    · have hstep : stepD s (.drop accepted) = s := by
        simp only [stepD, step]
        rw [if_neg hg]
        rfl
      rw [hstep]
      exact hs
  | setFormat id fmt =>
    have hstep : stepD s (.setFormat id fmt) =
        { s with files := updateOutputFormat id fmt s.files } := rfl
    rw [hstep]
    refine ⟨?_, ?_, hs.inflight_used, ?_⟩
    · have h1 := idsOf_map _ (formatUpdate_id id fmt) s.files
      exact h1.symm ▸ hs.nodup
    · intro f hf
      obtain ⟨f0, hf0, rfl⟩ := List.mem_map.mp hf
      rw [formatUpdate_id]
      exact hs.files_used f0 hf0
    · intro p hp f hf hfid
      obtain ⟨f0, hf0, rfl⟩ := List.mem_map.mp hf
      rw [formatUpdate_status]
      refine hs.inflight_converting p hp f0 hf0 ?_
      rw [← formatUpdate_id id fmt f0]
      exact hfid
  | convertStart fileObj eng =>
    by_cases hg : fileObj ∈ s.files ∧ fileObj.status = .pending
    · have hstep : stepD s (.convertStart fileObj eng) =
          { s with files := setConverting fileObj.id s.files,
                   inflight := s.inflight ++
                     [(fileObj.id, runEngine eng (requestedFormat fileObj))] } := by
        simp [stepD, step, hg]
      rw [hstep]
      refine ⟨?_, ?_, ?_, ?_⟩
      · have h1 := idsOf_map _ (convertingUpdate_id fileObj.id) s.files
        exact h1.symm ▸ hs.nodup
      · intro f hf
        obtain ⟨f0, hf0, rfl⟩ := List.mem_map.mp hf
        rw [convertingUpdate_id]
        exact hs.files_used f0 hf0
      · intro p hp
        rcases List.mem_append.mp hp with hp | hp
        · exact hs.inflight_used p hp
        · rw [List.mem_singleton] at hp
          subst hp
          exact hs.files_used fileObj hg.1
      · intro p hp f hf hfid
        obtain ⟨f0, hf0, rfl⟩ := List.mem_map.mp hf
        by_cases hc : f0.id = fileObj.id
        · simp [hc]
        · rw [if_neg hc] at hfid ⊢
          rcases List.mem_append.mp hp with hp | hp
          · exact hs.inflight_converting p hp f0 hf0 hfid
          · rw [List.mem_singleton] at hp
            subst hp
            exact absurd hfid hc
    · have hstep : stepD s (.convertStart fileObj eng) = s := by
        simp [stepD, step, hg]
      rw [hstep]
      exact hs
  | convertResolve id =>
    cases hfind : s.inflight.find? (fun p => p.1 == id) with
    | none =>
      have hstep : stepD s (.convertResolve id) = s := by
        simp [stepD, step, hfind]
      rw [hstep]
      exact hs
    | some p =>
      have hstep : stepD s (.convertResolve id) =
          { s with files := applyResolve id p.2 s.files,
                   inflight := s.inflight.filter (fun q => q.1 != id) } := by
        simp [stepD, step, hfind]
      rw [hstep]
      refine ⟨?_, ?_, ?_, ?_⟩
      · have h1 := idsOf_map _ (resolveEntry_id id p.2) s.files
        exact h1.symm ▸ hs.nodup
      · intro f hf
        obtain ⟨f0, hf0, rfl⟩ := List.mem_map.mp hf
        rw [resolveEntry_id]
        exact hs.files_used f0 hf0
      · intro q hq
        exact hs.inflight_used q (List.mem_of_mem_filter hq)
      · intro q hq f hf hfid
        obtain ⟨f0, hf0, rfl⟩ := List.mem_map.mp hf
        have hq' := List.mem_filter.mp hq
        have hqid : q.1 ≠ id := by simpa using hq'.2
        rw [resolveEntry_id] at hfid
        have hne : f0.id ≠ id := by rw [hfid]; exact hqid
        rw [resolveEntry_of_ne hne]
        exact hs.inflight_converting q hq'.1 f0 hf0 hfid
  | remove id =>
    have hstep : stepD s (.remove id) =
        { s with files := removeFile id s.files } := rfl
    rw [hstep]
    refine ⟨?_, ?_, hs.inflight_used, ?_⟩
    · have hsub : List.Sublist (idsOf (removeFile id s.files))
          (idsOf s.files) :=
        List.Sublist.map _ (List.filter_sublist s.files)
      exact List.Nodup.sublist hsub hs.nodup
    · intro f hf
      exact hs.files_used f (List.mem_of_mem_filter hf)
    · intro p hp f hf hfid
      exact hs.inflight_converting p hp f (List.mem_of_mem_filter hf) hfid

theorem usedIds_stepD {s : AppState} (e : Event) {i : String}
    (h : i ∈ s.usedIds) : i ∈ (stepD s e).usedIds := by
  cases e with
  | drop accepted =>
    by_cases hg : (accepted.map (fun p => p.2.1)).Nodup ∧
        ∀ j ∈ accepted.map (fun p => p.2.1), j ∉ s.usedIds
    · have hstep : (stepD s (.drop accepted)).usedIds =
          s.usedIds ++ accepted.map (fun p => p.2.1) := by
        simp only [stepD, step]
        rw [if_pos hg]
        rfl
      rw [hstep]
      exact List.mem_append_left _ h
    · have hstep : stepD s (.drop accepted) = s := by
        simp only [stepD, step]
        rw [if_neg hg]
        rfl
      rw [hstep]
      exact h
  | setFormat id fmt => exact h
  | convertStart fileObj eng =>
    by_cases hg : fileObj ∈ s.files ∧ fileObj.status = .pending
    · have hstep : (stepD s (.convertStart fileObj eng)).usedIds =
          s.usedIds := by
        simp only [stepD, step]
        rw [if_pos hg]
        rfl
      rw [hstep]
      exact h
    · have hstep : stepD s (.convertStart fileObj eng) = s := by
        simp only [stepD, step]
        rw [if_neg hg]
        rfl
      rw [hstep]
      exact h
  | convertResolve id =>
    cases hfind : s.inflight.find? (fun p => p.1 == id) with
    | none =>
      have hstep : stepD s (.convertResolve id) = s := by
        simp [stepD, step, hfind]
      rw [hstep]
      exact h
    | some p =>
      have hstep : (stepD s (.convertResolve id)).usedIds = s.usedIds := by
        simp [stepD, step, hfind]
      rw [hstep]
      exact h
  | remove id => exact h

theorem not_tracked_stepD {s : AppState} {i : String}
    (hused : i ∈ s.usedIds) (hnot : i ∉ idsOf s.files) (e : Event) :
    i ∉ idsOf (stepD s e).files := by
  cases e with
  | drop accepted =>
    by_cases hg : (accepted.map (fun p => p.2.1)).Nodup ∧
        ∀ j ∈ accepted.map (fun p => p.2.1), j ∉ s.usedIds
    · have hstep : (stepD s (.drop accepted)).files =
          onDrop accepted s.files := by
        simp only [stepD, step]
        rw [if_pos hg]
        rfl
      rw [hstep, idsOf_onDrop]
      intro hmem
      rcases List.mem_append.mp hmem with hmem | hmem
      · exact hnot hmem
      · exact hg.2 i hmem hused
    · have hstep : stepD s (.drop accepted) = s := by
        simp only [stepD, step]
        rw [if_neg hg]
        rfl
      rw [hstep]
      exact hnot
  | setFormat id fmt =>
    have h1 := idsOf_map _ (formatUpdate_id id fmt) s.files
    show i ∉ idsOf (updateOutputFormat id fmt s.files)
    rw [show idsOf (updateOutputFormat id fmt s.files) = idsOf s.files from h1]
    exact hnot
  | convertStart fileObj eng =>
    by_cases hg : fileObj ∈ s.files ∧ fileObj.status = .pending
    · have hstep : (stepD s (.convertStart fileObj eng)).files =
          setConverting fileObj.id s.files := by
        simp only [stepD, step]
        rw [if_pos hg]
        rfl
      rw [hstep]
      have h1 := idsOf_map _ (convertingUpdate_id fileObj.id) s.files
      rw [show idsOf (setConverting fileObj.id s.files) = idsOf s.files
        from h1]
      exact hnot
    · have hstep : stepD s (.convertStart fileObj eng) = s := by
        simp only [stepD, step]
        rw [if_neg hg]
        rfl
      rw [hstep]
      exact hnot
  | convertResolve id =>
    cases hfind : s.inflight.find? (fun p => p.1 == id) with
    | none =>
      have hstep : stepD s (.convertResolve id) = s := by
        simp [stepD, step, hfind]
      rw [hstep]
      exact hnot
    | some p =>
      have hstep : (stepD s (.convertResolve id)).files =
          applyResolve id p.2 s.files := by
        simp [stepD, step, hfind]
      rw [hstep]
      have h1 := idsOf_map _ (resolveEntry_id id p.2) s.files
      rw [show idsOf (applyResolve id p.2 s.files) = idsOf s.files from h1]
      exact hnot
  | remove id =>
    show i ∉ idsOf (removeFile id s.files)
    intro hmem
    obtain ⟨f0, hf0, rfl⟩ := mem_idsOf.mp hmem
    exact hnot (mem_idsOf.mpr ⟨f0, List.mem_of_mem_filter hf0, rfl⟩)

theorem not_tracked_run {s : AppState} {i : String}
    (hused : i ∈ s.usedIds) (hnot : i ∉ idsOf s.files)
    (es : List Event) : i ∉ idsOf (runEvents s es).files := by
  induction es generalizing s with
  | nil => exact hnot
  | cons e es ih =>
    exact ih (usedIds_stepD e hused) (not_tracked_stepD hused hnot e)

theorem inv_run {s : AppState} (hs : Inv s) (es : List Event) :
    Inv (runEvents s es) := by
  induction es generalizing s with
  | nil => exact hs
  | cons e es ih => exact ih (inv_stepD hs e)

theorem stepD_mono {s : AppState} (hs : Inv s) (e : Event)
    {f g : ProcessedFile} (hf : f ∈ s.files) (hg : g ∈ (stepD s e).files)
    (hid : g.id = f.id) :
    rank f.status ≤ rank g.status ∧
    (isTerminal f.status = true → g.status = f.status) := by
  cases e with
  | drop accepted =>
    by_cases hgd : (accepted.map (fun p => p.2.1)).Nodup ∧
        ∀ j ∈ accepted.map (fun p => p.2.1), j ∉ s.usedIds
    · have hstep : (stepD s (.drop accepted)).files =
          onDrop accepted s.files := by
        simp only [stepD, step]
        rw [if_pos hgd]
        rfl
      rw [hstep] at hg
      rcases List.mem_append.mp hg with hg | hg
      · have : g = f := eq_of_mem_same_id hs.nodup hg hf hid
        subst this
        exact ⟨le_refl _, fun _ => rfl⟩
      · exfalso
        obtain ⟨q, hq, rfl⟩ := List.mem_map.mp hg
        refine hgd.2 q.2.1 (List.mem_map_of_mem _ hq) ?_
        rw [show (q.2.1 : String) = f.id from hid]
        exact hs.files_used f hf
    · have hstep : stepD s (.drop accepted) = s := by
        simp only [stepD, step]
        rw [if_neg hgd]
        rfl
      rw [hstep] at hg
      have : g = f := eq_of_mem_same_id hs.nodup hg hf hid
      subst this
      exact ⟨le_refl _, fun _ => rfl⟩
  | setFormat id fmt =>
    obtain ⟨g0, hg0, rfl⟩ := List.mem_map.mp hg
    have hg0id : g0.id = f.id := by
      rw [← formatUpdate_id id fmt g0]
      exact hid
    have : g0 = f := eq_of_mem_same_id hs.nodup hg0 hf hg0id
    subst this
    rw [formatUpdate_status]
    exact ⟨le_refl _, fun _ => rfl⟩
  | convertStart fileObj eng =>
    by_cases hgd : fileObj ∈ s.files ∧ fileObj.status = .pending
    · have hstep : (stepD s (.convertStart fileObj eng)).files =
          setConverting fileObj.id s.files := by
        simp only [stepD, step]
        rw [if_pos hgd]
        rfl
      rw [hstep] at hg
      obtain ⟨g0, hg0, rfl⟩ := List.mem_map.mp hg
      have hg0id : g0.id = f.id := by
        rw [← convertingUpdate_id fileObj.id g0]
        exact hid
      have : g0 = f := eq_of_mem_same_id hs.nodup hg0 hf hg0id
      subst this
      by_cases hc : g0.id = fileObj.id
      · have : g0 = fileObj := eq_of_mem_same_id hs.nodup hg0 hgd.1 hc
        subst this
        rw [if_pos hc, hgd.2]
        exact ⟨by simp [rank], fun ht => by simp [isTerminal, hgd.2] at ht⟩
      · rw [if_neg hc]
        exact ⟨le_refl _, fun _ => rfl⟩
    · have hstep : stepD s (.convertStart fileObj eng) = s := by
        simp only [stepD, step]
        rw [if_neg hgd]
        rfl
      rw [hstep] at hg
      have : g = f := eq_of_mem_same_id hs.nodup hg hf hid
      subst this
      exact ⟨le_refl _, fun _ => rfl⟩
  | convertResolve id =>
    cases hfind : s.inflight.find? (fun p => p.1 == id) with
    | none =>
      have hstep : stepD s (.convertResolve id) = s := by
        simp [stepD, step, hfind]
      rw [hstep] at hg
      have : g = f := eq_of_mem_same_id hs.nodup hg hf hid
      subst this
      exact ⟨le_refl _, fun _ => rfl⟩
    | some p =>
      have hstep : (stepD s (.convertResolve id)).files =
          applyResolve id p.2 s.files := by
        simp [stepD, step, hfind]
      rw [hstep] at hg
      obtain ⟨g0, hg0, rfl⟩ := List.mem_map.mp hg
      have hg0id : g0.id = f.id := by
        rw [← resolveEntry_id id p.2 g0]
        exact hid
      have : g0 = f := eq_of_mem_same_id hs.nodup hg0 hf hg0id
      subst this
      by_cases hc : g0.id = id
      · have hp_mem : p ∈ s.inflight := List.mem_of_find?_eq_some hfind
        have hp_id : p.1 = id := by
          have := List.find?_some hfind
          simpa using this
        have hconv : g0.status = .converting :=
          hs.inflight_converting p hp_mem g0 hg0 (hc.trans hp_id.symm)
        have hrank : rank (resolveEntry id p.2 g0).status = 2 := by
          cases hres : p.2 <;> simp [resolveEntry, hc, rank, hres]
        refine ⟨?_, fun ht => ?_⟩
        · rw [hrank, hconv]
          simp [rank]
        · rw [hconv] at ht
          simp [isTerminal] at ht
      · rw [resolveEntry_of_ne hc]
        exact ⟨le_refl _, fun _ => rfl⟩
  | remove id =>
    have hg' : g ∈ s.files :=
      List.mem_of_mem_filter (by exact hg)
    have : g = f := eq_of_mem_same_id hs.nodup hg' hf hid
    subst this
    exact ⟨le_refl _, fun _ => rfl⟩

theorem mono_run {s : AppState} (hs : Inv s) (es : List Event)
    {f g : ProcessedFile} (hf : f ∈ s.files)
    (hg : g ∈ (runEvents s es).files) (hid : g.id = f.id) :
    rank f.status ≤ rank g.status ∧
    (isTerminal f.status = true → g.status = f.status) := by
  induction es generalizing s f with
  | nil =>
    have : g = f := eq_of_mem_same_id hs.nodup hg hf hid
    subst this
    exact ⟨le_refl _, fun _ => rfl⟩
  | cons e es ih =>
    by_cases hmid : f.id ∈ idsOf (stepD s e).files
    · obtain ⟨f1, hf1, hf1id⟩ := mem_idsOf.mp hmid
      have h1 := stepD_mono hs e hf hf1 hf1id
      have h2 := ih (inv_stepD hs e) hf1 hg (hid.trans hf1id.symm)
      refine ⟨le_trans h1.1 h2.1, fun ht => ?_⟩
      have hst1 : f1.status = f.status := h1.2 ht
      have ht1 : isTerminal f1.status = true := by
        rw [hst1]
        exact ht
      rw [h2.2 ht1, hst1]
    · exfalso
      have hused : f.id ∈ (stepD s e).usedIds :=
        usedIds_stepD e (hs.files_used f hf)
      refine not_tracked_run hused hmid es ?_
      exact mem_idsOf.mpr ⟨g, hg, hid⟩

/-- C4: over any run of UI events from the initial state, the status of a
tracked entry is monotone along the chain pending, converting, then the
terminal statuses, and an entry that has reached a terminal status
(`completed` or `error`) keeps it: an entry observed after further events
never has a lower-ranked status, and never leaves a terminal status. -/
theorem status_monotone (es1 es2 : List Event) (f g : ProcessedFile)
    (hf : f ∈ (runEvents initState es1).files)
    (hg : g ∈ (runEvents initState (es1 ++ es2)).files)
    (hid : g.id = f.id) :
    rank f.status ≤ rank g.status ∧
    (isTerminal f.status = true → g.status = f.status) := by
  have hinv := inv_run inv_init es1
  rw [runEvents_append] at hg
  exact mono_run hinv es2 hf hg hid

/-! Concrete sample inputs used to instantiate the theorems. -/

/-- An engine run in which every call succeeds and the read returns two
bytes. -/
def engAllOk : EngineRun :=
  { writeOk := true, execOk := true, readResult := some [7, 7],
    deleteInputOk := true, deleteOutputOk := true }

/-- An engine run in which every call succeeds but the read returns an
empty buffer. -/
def engEmptyRead : EngineRun :=
  { writeOk := true, execOk := true, readResult := some [],
    deleteInputOk := true, deleteOutputOk := true }

/-- A sample dropped video file and its tracked entry. -/
def sampleVideoFile : FileInfo := { name := "clip.mov", type := "video/quicktime" }

def sampleVideoEntry : ProcessedFile :=
  { file := sampleVideoFile, id := "id6", status := .pending,
    preview := "blob:6", outputUrl := none, outputFormat := some "mp4" }

theorem convert_end_state_witness :
    (convertUpdate engAllOk sampleEntry sampleEntry).status =
      Status.completed :=
  ((convert_end_state engAllOk sampleEntry sampleEntry [sampleEntry]
      (by decide) rfl rfl).2.1 ⟨rfl, rfl, [7, 7], rfl, by decide⟩).1

theorem convert_empty_output_witness :
    runEngine engEmptyRead (requestedFormat sampleEntry) =
      .failed .emptyOutput ∧
    (convertUpdate engEmptyRead sampleEntry sampleEntry).status =
      Status.error ∧
    convertUpdate engEmptyRead sampleEntry sampleEntry ∈
      (convertFile engEmptyRead sampleEntry [sampleEntry]).1 :=
  convert_empty_output engEmptyRead sampleEntry sampleEntry [sampleEntry] []
    (by decide) rfl rfl rfl rfl rfl

theorem convert_video_pipeline_witness :
    EngineCall.exec ["-i", inputNameOf sampleVideoEntry, "-c:v", "libx264",
      "-preset", "ultrafast", "-crf", "23", "-c:a", "aac",
      outputNameOf sampleVideoEntry] ∈
      (convertFile engAllOk sampleVideoEntry [sampleVideoEntry]).2 :=
  (convert_video_pipeline engAllOk sampleVideoEntry [sampleVideoEntry]
    (by decide)).2.1 rfl

theorem cleanup_after_convert_witness :
    EngineCall.deleteFile (inputNameOf sampleEntry) ∈
      (convertFile engAllOk sampleEntry [sampleEntry]).2 ∧
    EngineCall.deleteFile (outputNameOf sampleEntry) ∈
      (convertFile engAllOk sampleEntry [sampleEntry]).2 :=
  ⟨(cleanup_after_convert engAllOk sampleEntry [sampleEntry]).1,
   (cleanup_after_convert engAllOk sampleEntry [sampleEntry]).2.1 rfl⟩

theorem remove_and_stale_resolve_witness :
    (sampleEntry ∈ removeFile "zz" [sampleEntry] ↔
      sampleEntry ∈ [sampleEntry] ∧ sampleEntry.id ≠ "zz") ∧
    applyResolve "zz" (ConvResult.failed ConvError.execFailure)
      [sampleEntry] = [sampleEntry] :=
  ⟨(remove_and_stale_resolve "zz" [sampleEntry]
      (.failed .execFailure)).1 sampleEntry,
   (remove_and_stale_resolve "zz" [sampleEntry]
      (.failed .execFailure)).2 (by decide)⟩

theorem update_frame_witness :
    (setConverting "zz" [sampleEntry])[0]? = some sampleEntry ∧
    (applyResolve "zz" (ConvResult.failed ConvError.execFailure)
      [sampleEntry])[0]? = some sampleEntry ∧
    (updateOutputFormat "zz" "jpg" [sampleEntry])[0]? = some sampleEntry := by
  have h := (update_frame "zz" "jpg" (ConvResult.failed ConvError.execFailure)
    engAllOk sampleEntry [sampleEntry] 0 (by decide)).1 (by decide)
  exact h

theorem setFormat_updates_by_id_witness :
    updateOutputFormat "zz" "jpg" [sampleEntry] = [sampleEntry] ∧
    (updateOutputFormat "id1" "jpg" [sampleEntry])[0]? =
      some { sampleEntry with outputFormat := some "jpg" } := by
  refine ⟨(setFormat_updates_by_id "zz" "jpg" [sampleEntry]).1 (by decide), ?_⟩
  have h := ((setFormat_updates_by_id "id1" "jpg" [sampleEntry]).2 0
    (by decide)).1 (by decide)
  exact h

theorem onDrop_creates_pending_witness :
    (onDrop [(sampleImageFile, "w5", "p5")] []).length = 0 + 1 ∧
    (onDrop [(sampleImageFile, "w5", "p5")] [])[0]? =
      some (mkDroppedEntry sampleImageFile "w5" "p5") ∧
    (mkDroppedEntry sampleImageFile "w5" "p5").status = Status.pending ∧
    (mkDroppedEntry sampleImageFile "w5" "p5").outputFormat = some "png" := by
  have h := onDrop_creates_pending [(sampleImageFile, "w5", "p5")] []
  refine ⟨h.1, ?_, (h.2.2.2 sampleImageFile "w5" "p5").1, ?_⟩
  · have h2 := h.2.2.1 0 (by decide)
    exact h2
  · have h4 := (h.2.2.2 sampleImageFile "w5" "p5").2.2.2
    rw [h4]
    decide

theorem getMimeType_case_insensitive_witness :
    getMimeType "PNG" = getMimeType "PNG".toLower ∧
    getMimeType "heic" = "image/png" :=
  ⟨(getMimeType_case_insensitive "PNG").1,
   (getMimeType_case_insensitive "heic").2.1 (by decide)⟩

theorem status_monotone_witness :
    rank (mkDroppedEntry sampleImageFile "w4" "p4").status ≤
      rank ({ mkDroppedEntry sampleImageFile "w4" "p4" with
        status := Status.converting } : ProcessedFile).status :=
  (status_monotone [Event.drop [(sampleImageFile, "w4", "p4")]]
    [Event.convertStart (mkDroppedEntry sampleImageFile "w4" "p4") engAllOk]
    (mkDroppedEntry sampleImageFile "w4" "p4")
    { mkDroppedEntry sampleImageFile "w4" "p4" with
      status := Status.converting }
    (by decide) (by decide) rfl).1

end Converter
